import Mathlib

/-!
Shallow embedding of the adaptive Morse decoder of this repository
(src/core/src/interpret.rs, with the pattern table of src/core/src/patterns.rs
and the data types of src/core/src/types.rs), together with proofs about it.

Modelling conventions:
* Rust f32 values (durations, costs, confidences) are modelled as real
  numbers with exact arithmetic.
* i32 is modelled as Int, u16/usize indices and counts as Nat.
* Rust String is modelled as List Char; every character the decoder emits is
  ASCII, so Rust byte lengths coincide with character counts.
* Vec push/index/truncate are modelled with List operations; out-of-range
  indexing is modelled with getD (the source never indexes out of range).
* Functions whose Rust signature is Result but which construct no Err value
  (find_dot_duration, cluster_gap_durations) are modelled as plain functions.
-/

namespace Dahdit

noncomputable section

/-- MorseSignal from types.rs: one tone or silence period with its duration
in seconds.  The source field named on is called is_on here, since on is a
reserved word in Lean. -/
structure MorseSignal where
  is_on : Bool
  seconds : ℝ

/-- MorseInterpretParams from types.rs. -/
structure MorseInterpretParams where
  max_output_length : Int

/-- Default MorseInterpretParams (types.rs): max_output_length = 1000. -/
def MorseInterpretParams.default : MorseInterpretParams :=
  { max_output_length := 1000 }

/-- MorseInterpretResult from types.rs. -/
structure MorseInterpretResult where
  text : List Char
  confidence : ℝ
  signals_processed : Int
  patterns_recognized : Int

/-- MorseElementType from types.rs. -/
inductive MorseElementType where
  | Dot
  | Dash
  | Gap
deriving DecidableEq

/-- GapType from interpret.rs. -/
inductive GapType where
  | IntraCharacter
  | InterCharacter
  | Word
deriving DecidableEq

/-- Rust slice::sort_by with partial_cmp (ascending); on real inputs (no NaN)
this is an ascending sort. -/
def sortReal (l : List ℝ) : List ℝ :=
  l.insertionSort (· ≤ ·)

/-- TimingStats::new (interpret.rs) followed by reading its median field:
sorts the values and takes the middle element, averaging the two middle
elements for even lengths; None on empty input. -/
def TimingStats.median (values : List ℝ) : Option ℝ :=
  if values.isEmpty then none
  else
    let sorted := sortReal values
    let len := sorted.length
    if len % 2 = 0 then some ((sorted.getD (len / 2 - 1) 0 + sorted.getD (len / 2) 0) / 2)
    else some (sorted.getD (len / 2) 0)

/-- GapClusters from interpret.rs: adaptive gap classification thresholds. -/
structure GapClusters where
  intra_to_inter_threshold : ℝ
  inter_to_word_threshold : ℝ

/-- MorseTimings from interpret.rs. -/
structure MorseTimings where
  dot_duration : ℝ
  gap_clusters : GapClusters

/-- The hardcoded noise threshold of MorseTimings::from_signals. -/
def NOISE_THRESHOLD : ℝ := 0.01

/-- The refinement loop of MorseTimings::find_dot_duration: scan consecutive
sorted durations keeping (best_split, max_gap); a strictly larger gap updates
max_gap and, when its midpoint lies in the plausible range, best_split. -/
def findBestSplit (sorted : List ℝ) (init expected_dot expected_dash : ℝ) : ℝ :=
  ((List.range (sorted.length - 1)).foldl
    (fun acc i =>
      let gap := sorted.getD (i + 1) 0 - sorted.getD i 0
      if acc.2 < gap then
        let potential_split := (sorted.getD i 0 + sorted.getD (i + 1) 0) / 2
        if expected_dot * 0.5 < potential_split ∧ potential_split < expected_dash * 1.5 then
          (potential_split, gap)
        else (acc.1, gap)
      else acc)
    (init, (0 : ℝ))).1

/-- MorseTimings::find_dot_duration (interpret.rs): classify ON durations
against a 15 WPM prior, refine the dot/dash split at the largest gap between
consecutive sorted durations, and return the median of the dot cluster
(falling back to the prior dot duration). Its Rust Result never carries Err. -/
def MorseTimings.find_dot_duration (on_durations : List ℝ) : ℝ :=
  let expected_dot_duration := (1.2 : ℝ) / 15
  let expected_dash_duration := expected_dot_duration * 3.0
  let dot_candidates := on_durations.filter fun d =>
    decide (|d - expected_dot_duration| ≤ |d - expected_dash_duration|)
  let dash_candidates := on_durations.filter fun d =>
    !decide (|d - expected_dot_duration| ≤ |d - expected_dash_duration|)
  let dot_candidates2 :=
    if !dot_candidates.isEmpty && !dash_candidates.isEmpty then
      let sorted_durations := sortReal on_durations
      let best_split := findBestSplit sorted_durations
        ((expected_dot_duration + expected_dash_duration) / 2)
        expected_dot_duration expected_dash_duration
      on_durations.filter fun d => decide (d ≤ best_split)
    else dot_candidates
  if !dot_candidates2.isEmpty then (TimingStats.median dot_candidates2).getD expected_dot_duration
  else expected_dot_duration

/-- Descending sort by the first component, as in the Rust
sort_by(|a, b| b.0.partial_cmp(&a.0)) over (difference, index) pairs. -/
def sortPairsDesc (l : List (ℝ × Nat)) : List (ℝ × Nat) :=
  @List.insertionSort _ (fun a b => b.1 ≤ a.1) (fun _ _ => Real.decidableLE _ _) l

/-- MorseTimings::cluster_gap_durations (interpret.rs): derive the two gap
thresholds from the OFF durations (fallbacks for zero or fewer than three
samples; otherwise the two largest consecutive gaps of the sorted list
become cluster boundaries). Its Rust Result never carries Err. -/
def MorseTimings.cluster_gap_durations (off_durations : List ℝ) (dot_duration : ℝ) :
    GapClusters :=
  if off_durations.isEmpty then
    { intra_to_inter_threshold := dot_duration * 2.0
      inter_to_word_threshold := dot_duration * 5.0 }
  else if off_durations.length < 3 then
    let sorted_gaps := sortReal off_durations
    let mid_point := sorted_gaps.getD (sorted_gaps.length / 2) 0
    { intra_to_inter_threshold := mid_point * 0.7
      inter_to_word_threshold := mid_point * 1.5 }
  else
    let sorted_gaps := sortReal off_durations
    let gap_differences := (List.range (sorted_gaps.length - 1)).map fun i =>
      (sorted_gaps.getD (i + 1) 0 - sorted_gaps.getD i 0, i)
    let sorted_diffs := sortPairsDesc gap_differences
    let breakpoints := ((sorted_diffs.take 2).map Prod.snd).insertionSort (· ≤ ·)
    let intra_to_inter_threshold :=
      if !breakpoints.isEmpty then
        (sorted_gaps.getD (breakpoints.getD 0 0) 0
          + sorted_gaps.getD (breakpoints.getD 0 0 + 1) 0) / 2
      else dot_duration * 1.5
    let inter_to_word_threshold :=
      if 2 ≤ breakpoints.length then
        (sorted_gaps.getD (breakpoints.getD 1 0) 0
          + sorted_gaps.getD (breakpoints.getD 1 0 + 1) 0) / 2
      else intra_to_inter_threshold * 2.5
    { intra_to_inter_threshold := intra_to_inter_threshold
      inter_to_word_threshold := inter_to_word_threshold }

/-- MorseTimings::from_signals (interpret.rs): split the signals into ON and
OFF durations dropping everything below the noise threshold; fail when no
valid ON duration remains, otherwise analyze dot duration and gap clusters. -/
def MorseTimings.from_signals (signals : List MorseSignal) : Except String MorseTimings :=
  let on_durations := (signals.filter fun s =>
    s.is_on && decide (NOISE_THRESHOLD ≤ s.seconds)).map (fun s => s.seconds)
  let off_durations := (signals.filter fun s =>
    !s.is_on && decide (NOISE_THRESHOLD ≤ s.seconds)).map (fun s => s.seconds)
  if on_durations.isEmpty then
    Except.error "No valid on signals found"
  else
    let dot_duration := MorseTimings.find_dot_duration on_durations
    let gap_clusters := MorseTimings.cluster_gap_durations off_durations dot_duration
    Except.ok { dot_duration := dot_duration, gap_clusters := gap_clusters }

/-- ln_pdf_lognormal from interpret.rs: log-normal log-density; mu and sigma
live in log space, and durations below 1e-6 are clamped before taking logs. -/
def ln_pdf_lognormal (d mu sigma : ℝ) : ℝ :=
  let x := max d 1e-6
  let ln_x := Real.log x
  let z := (ln_x - mu) / sigma
  let sqrt_2pi := Real.sqrt (2 * Real.pi)
  (-0.5) * z * z - ln_x - Real.log (sigma * sqrt_2pi)

/-- DEFAULT_TIMING_TRACKER_ALPHA from interpret.rs. -/
def DEFAULT_TIMING_TRACKER_ALPHA : ℝ := 0.1

/-- DEFAULT_TIMING_SIGMA from interpret.rs. -/
def DEFAULT_TIMING_SIGMA : ℝ := 0.5

/-- TimingTracker from interpret.rs: EWMA estimate of the log unit time. -/
structure TimingTracker where
  ln_t : ℝ
  alpha : ℝ

/-- TimingTracker::new. -/
def TimingTracker.new (initial_t : ℝ) : TimingTracker :=
  { ln_t := Real.log (max initial_t 1e-6), alpha := DEFAULT_TIMING_TRACKER_ALPHA }

/-- TimingTracker::update_from_on_signal: decide whether the duration looks
more like one unit or three units, and blend the implied log unit time into
ln_t by EWMA. -/
def TimingTracker.update_from_on_signal (tr : TimingTracker) (duration : ℝ) : TimingTracker :=
  let ln_duration := Real.log (max duration 1e-6)
  let ln1t_diff := |ln_duration - tr.ln_t|
  let ln3t_diff := |ln_duration - (tr.ln_t + Real.log 3)|
  let target_ln_t := if ln1t_diff < ln3t_diff then ln_duration else ln_duration - Real.log 3
  { tr with ln_t := (1 - tr.alpha) * tr.ln_t + tr.alpha * target_ln_t }

/-- TimingTracker::get_ln_t. -/
def TimingTracker.get_ln_t (tr : TimingTracker) : ℝ := tr.ln_t

/-- TimingTracker::get_t: the current unit time estimate. -/
def TimingTracker.get_t (tr : TimingTracker) : ℝ := Real.exp tr.ln_t

/-- ProbabilisticTimingModel from interpret.rs. -/
structure ProbabilisticTimingModel where
  ln_t : ℝ
  sigma : ℝ
  gap_clusters : GapClusters

/-- ProbabilisticTimingModel::from_tracker_and_clusters. -/
def ProbabilisticTimingModel.from_tracker_and_clusters
    (tracker : TimingTracker) (gap_clusters : GapClusters) : ProbabilisticTimingModel :=
  { ln_t := tracker.get_ln_t, sigma := DEFAULT_TIMING_SIGMA, gap_clusters := gap_clusters }

/-- ProbabilisticTimingModel::element_costs: negative log-likelihood of Dot
and Dash for an ON duration. -/
def ProbabilisticTimingModel.element_costs (m : ProbabilisticTimingModel) (duration : ℝ) :
    List (MorseElementType × ℝ) :=
  let ln_1t := m.ln_t
  let ln_3t := m.ln_t + Real.log 3
  [(MorseElementType.Dot, -ln_pdf_lognormal duration ln_1t m.sigma),
   (MorseElementType.Dash, -ln_pdf_lognormal duration ln_3t m.sigma)]

/-- ProbabilisticTimingModel::gap_costs: distance-based costs of the three
gap classes for an OFF duration, relative to the cluster thresholds. -/
def ProbabilisticTimingModel.gap_costs (m : ProbabilisticTimingModel) (duration : ℝ) :
    List (GapType × ℝ) :=
  let intra_cost :=
    if duration ≤ m.gap_clusters.intra_to_inter_threshold then
      |duration - m.gap_clusters.intra_to_inter_threshold / 2| * 0.1
    else
      |duration - m.gap_clusters.intra_to_inter_threshold| * 0.5
  let inter_cost :=
    if m.gap_clusters.intra_to_inter_threshold < duration ∧
        duration ≤ m.gap_clusters.inter_to_word_threshold then
      let mid_point := (m.gap_clusters.intra_to_inter_threshold
        + m.gap_clusters.inter_to_word_threshold) / 2
      |duration - mid_point| * 0.1
    else
      let distance_from_range :=
        if duration ≤ m.gap_clusters.intra_to_inter_threshold then
          m.gap_clusters.intra_to_inter_threshold - duration
        else duration - m.gap_clusters.inter_to_word_threshold
      distance_from_range * 0.5
  let word_cost :=
    if m.gap_clusters.inter_to_word_threshold < duration then
      |duration - m.gap_clusters.inter_to_word_threshold * 1.2| * 0.1
    else
      (m.gap_clusters.inter_to_word_threshold - duration) * 0.5
  [(GapType.IntraCharacter, intra_cost),
   (GapType.InterCharacter, inter_cost),
   (GapType.Word, word_cost)]

/-- ProbabilisticTimingModel::classify_element_min_cost. -/
def ProbabilisticTimingModel.classify_element_min_cost
    (m : ProbabilisticTimingModel) (duration : ℝ) : MorseElementType :=
  let costs := m.element_costs duration
  let c0 := costs.getD 0 (MorseElementType.Dot, 0)
  let c1 := costs.getD 1 (MorseElementType.Dot, 0)
  if c0.2 ≤ c1.2 then c0.1 else c1.1

/-- ProbabilisticTimingModel::classify_gap_min_cost: strict-minimum scan of
the gap costs, starting from the first entry. -/
def ProbabilisticTimingModel.classify_gap_min_cost
    (m : ProbabilisticTimingModel) (duration : ℝ) : GapType :=
  let costs := m.gap_costs duration
  let first := costs.getD 0 (GapType.IntraCharacter, 0)
  ((costs.drop 1).foldl (fun acc p => if p.2 < acc.2 then p else acc) first).1

/-- TrieNode from interpret.rs; node index 0 means no transition. -/
structure TrieNode where
  next_dot : Nat
  next_dash : Nat
  terminal : Option Char

/-- TrieNode::new. -/
def TrieNode.new : TrieNode := { next_dot := 0, next_dash := 0, terminal := none }

/-- MorseTrie from interpret.rs: an arena of nodes with the root at index 0.
The Vec arena is modelled as a List, u16 indices as Nat. -/
structure MorseTrie where
  nodes : List TrieNode

/-- MorseTrie::ROOT. -/
def MorseTrie.ROOT : Nat := 0

/-- The element walk of MorseTrie::add_pattern: follow or create dot/dash
transitions, skipping Gap elements, returning the updated arena and the node
index reached after the pattern. -/
def MorseTrie.addElements : MorseTrie → Nat → List MorseElementType → MorseTrie × Nat
  | t, current, [] => (t, current)
  | t, current, element :: rest =>
    match element with
    | MorseElementType.Dot =>
      let node := t.nodes.getD current TrieNode.new
      if node.next_dot = 0 then
        let new_idx := t.nodes.length
        let nodes1 := t.nodes ++ [TrieNode.new]
        MorseTrie.addElements ⟨nodes1.set current { node with next_dot := new_idx }⟩ new_idx rest
      else
        MorseTrie.addElements t node.next_dot rest
    | MorseElementType.Dash =>
      let node := t.nodes.getD current TrieNode.new
      if node.next_dash = 0 then
        let new_idx := t.nodes.length
        let nodes1 := t.nodes ++ [TrieNode.new]
        MorseTrie.addElements ⟨nodes1.set current { node with next_dash := new_idx }⟩ new_idx rest
      else
        MorseTrie.addElements t node.next_dash rest
    | MorseElementType.Gap =>
      MorseTrie.addElements t current rest

/-- MorseTrie::add_pattern: walk the pattern and mark the final node as
terminal for the given character. -/
def MorseTrie.add_pattern (t : MorseTrie) (pattern : List MorseElementType) (terminal : Char) :
    MorseTrie :=
  let walked := MorseTrie.addElements t 0 pattern
  ⟨walked.1.nodes.set walked.2
    { walked.1.nodes.getD walked.2 TrieNode.new with terminal := some terminal }⟩

/-- MorseTrie::transition. -/
def MorseTrie.transition (t : MorseTrie) (node_idx : Nat) (element : MorseElementType) :
    Option Nat :=
  if t.nodes.length ≤ node_idx then none
  else
    let node := t.nodes.getD node_idx TrieNode.new
    match element with
    | MorseElementType.Dot => if 0 < node.next_dot then some node.next_dot else none
    | MorseElementType.Dash => if 0 < node.next_dash then some node.next_dash else none
    | MorseElementType.Gap => none

/-- MorseTrie::get_terminal. -/
def MorseTrie.get_terminal (t : MorseTrie) (node_idx : Nat) : Option Char :=
  if t.nodes.length ≤ node_idx then none
  else (t.nodes.getD node_idx TrieNode.new).terminal

/-- The pattern constants of patterns.rs (dot/dash sequences). -/

def PATTERN_A : List MorseElementType := [.Dot, .Dash]

def PATTERN_B : List MorseElementType := [.Dash, .Dot, .Dot, .Dot]

def PATTERN_C : List MorseElementType := [.Dash, .Dot, .Dash, .Dot]

def PATTERN_D : List MorseElementType := [.Dash, .Dot, .Dot]

def PATTERN_E : List MorseElementType := [.Dot]

def PATTERN_F : List MorseElementType := [.Dot, .Dot, .Dash, .Dot]

def PATTERN_G : List MorseElementType := [.Dash, .Dash, .Dot]

def PATTERN_H : List MorseElementType := [.Dot, .Dot, .Dot, .Dot]

def PATTERN_I : List MorseElementType := [.Dot, .Dot]

def PATTERN_J : List MorseElementType := [.Dot, .Dash, .Dash, .Dash]

def PATTERN_K : List MorseElementType := [.Dash, .Dot, .Dash]

def PATTERN_L : List MorseElementType := [.Dot, .Dash, .Dot, .Dot]

def PATTERN_M : List MorseElementType := [.Dash, .Dash]

def PATTERN_N : List MorseElementType := [.Dash, .Dot]

def PATTERN_O : List MorseElementType := [.Dash, .Dash, .Dash]

def PATTERN_P : List MorseElementType := [.Dot, .Dash, .Dash, .Dot]

def PATTERN_Q : List MorseElementType := [.Dash, .Dash, .Dot, .Dash]

def PATTERN_R : List MorseElementType := [.Dot, .Dash, .Dot]

def PATTERN_S : List MorseElementType := [.Dot, .Dot, .Dot]

def PATTERN_T : List MorseElementType := [.Dash]

def PATTERN_U : List MorseElementType := [.Dot, .Dot, .Dash]

def PATTERN_V : List MorseElementType := [.Dot, .Dot, .Dot, .Dash]

def PATTERN_W : List MorseElementType := [.Dot, .Dash, .Dash]

def PATTERN_X : List MorseElementType := [.Dash, .Dot, .Dot, .Dash]

def PATTERN_Y : List MorseElementType := [.Dash, .Dot, .Dash, .Dash]

def PATTERN_Z : List MorseElementType := [.Dash, .Dash, .Dot, .Dot]

def PATTERN_0 : List MorseElementType := [.Dash, .Dash, .Dash, .Dash, .Dash]

def PATTERN_1 : List MorseElementType := [.Dot, .Dash, .Dash, .Dash, .Dash]

def PATTERN_2 : List MorseElementType := [.Dot, .Dot, .Dash, .Dash, .Dash]

def PATTERN_3 : List MorseElementType := [.Dot, .Dot, .Dot, .Dash, .Dash]

def PATTERN_4 : List MorseElementType := [.Dot, .Dot, .Dot, .Dot, .Dash]

def PATTERN_5 : List MorseElementType := [.Dot, .Dot, .Dot, .Dot, .Dot]

def PATTERN_6 : List MorseElementType := [.Dash, .Dot, .Dot, .Dot, .Dot]

def PATTERN_7 : List MorseElementType := [.Dash, .Dash, .Dot, .Dot, .Dot]

def PATTERN_8 : List MorseElementType := [.Dash, .Dash, .Dash, .Dot, .Dot]

def PATTERN_9 : List MorseElementType := [.Dash, .Dash, .Dash, .Dash, .Dot]

def PATTERN_PERIOD : List MorseElementType := [.Dot, .Dash, .Dot, .Dash, .Dot, .Dash]

def PATTERN_COMMA : List MorseElementType := [.Dash, .Dash, .Dot, .Dot, .Dash, .Dash]

def PATTERN_QUESTION : List MorseElementType := [.Dot, .Dot, .Dash, .Dash, .Dot, .Dot]

def PATTERN_QUOTE : List MorseElementType := [.Dot, .Dash, .Dash, .Dash, .Dash, .Dot]

def PATTERN_EXCLAIM : List MorseElementType := [.Dash, .Dot, .Dash, .Dot, .Dash, .Dash]

def PATTERN_SLASH : List MorseElementType := [.Dash, .Dot, .Dot, .Dash, .Dot]

def PATTERN_LPAREN : List MorseElementType := [.Dash, .Dot, .Dash, .Dash, .Dot]

def PATTERN_RPAREN : List MorseElementType := [.Dash, .Dot, .Dash, .Dash, .Dot, .Dash]

def PATTERN_AMPERSAND : List MorseElementType := [.Dot, .Dash, .Dot, .Dot, .Dot]

def PATTERN_COLON : List MorseElementType := [.Dash, .Dash, .Dash, .Dot, .Dot, .Dot]

def PATTERN_SEMICOLON : List MorseElementType := [.Dash, .Dot, .Dash, .Dot, .Dash, .Dot]

def PATTERN_EQUALS : List MorseElementType := [.Dash, .Dot, .Dot, .Dot, .Dash]

def PATTERN_PLUS : List MorseElementType := [.Dot, .Dash, .Dot, .Dash, .Dot]

def PATTERN_HYPHEN : List MorseElementType := [.Dash, .Dot, .Dot, .Dot, .Dot, .Dash]

def PATTERN_UNDERSCORE : List MorseElementType := [.Dot, .Dot, .Dash, .Dash, .Dot, .Dash]

def PATTERN_DQUOTE : List MorseElementType := [.Dot, .Dash, .Dot, .Dot, .Dash, .Dot]

def PATTERN_DOLLAR : List MorseElementType := [.Dot, .Dot, .Dot, .Dash, .Dot, .Dot, .Dash]

def PATTERN_AT : List MorseElementType := [.Dot, .Dash, .Dash, .Dot, .Dash, .Dot]

/-- get_morse_pattern from patterns.rs: the 256-entry lookup table,
written as a match on the byte value; lowercase letters map to the same
patterns as uppercase ones. -/
def get_morse_pattern (ch : UInt8) : Option (List MorseElementType) :=
  match ch.toNat with
  | 65 => some PATTERN_A
  | 66 => some PATTERN_B
  | 67 => some PATTERN_C
  | 68 => some PATTERN_D
  | 69 => some PATTERN_E
  | 70 => some PATTERN_F
  | 71 => some PATTERN_G
  | 72 => some PATTERN_H
  | 73 => some PATTERN_I
  | 74 => some PATTERN_J
  | 75 => some PATTERN_K
  | 76 => some PATTERN_L
  | 77 => some PATTERN_M
  | 78 => some PATTERN_N
  | 79 => some PATTERN_O
  | 80 => some PATTERN_P
  | 81 => some PATTERN_Q
  | 82 => some PATTERN_R
  | 83 => some PATTERN_S
  | 84 => some PATTERN_T
  | 85 => some PATTERN_U
  | 86 => some PATTERN_V
  | 87 => some PATTERN_W
  | 88 => some PATTERN_X
  | 89 => some PATTERN_Y
  | 90 => some PATTERN_Z
  | 97 => some PATTERN_A
  | 98 => some PATTERN_B
  | 99 => some PATTERN_C
  | 100 => some PATTERN_D
  | 101 => some PATTERN_E
  | 102 => some PATTERN_F
  | 103 => some PATTERN_G
  | 104 => some PATTERN_H
  | 105 => some PATTERN_I
  | 106 => some PATTERN_J
  | 107 => some PATTERN_K
  | 108 => some PATTERN_L
  | 109 => some PATTERN_M
  | 110 => some PATTERN_N
  | 111 => some PATTERN_O
  | 112 => some PATTERN_P
  | 113 => some PATTERN_Q
  | 114 => some PATTERN_R
  | 115 => some PATTERN_S
  | 116 => some PATTERN_T
  | 117 => some PATTERN_U
  | 118 => some PATTERN_V
  | 119 => some PATTERN_W
  | 120 => some PATTERN_X
  | 121 => some PATTERN_Y
  | 122 => some PATTERN_Z
  | 48 => some PATTERN_0
  | 49 => some PATTERN_1
  | 50 => some PATTERN_2
  | 51 => some PATTERN_3
  | 52 => some PATTERN_4
  | 53 => some PATTERN_5
  | 54 => some PATTERN_6
  | 55 => some PATTERN_7
  | 56 => some PATTERN_8
  | 57 => some PATTERN_9
  | 46 => some PATTERN_PERIOD
  | 44 => some PATTERN_COMMA
  | 63 => some PATTERN_QUESTION
  | 39 => some PATTERN_QUOTE
  | 33 => some PATTERN_EXCLAIM
  | 47 => some PATTERN_SLASH
  | 40 => some PATTERN_LPAREN
  | 41 => some PATTERN_RPAREN
  | 38 => some PATTERN_AMPERSAND
  | 58 => some PATTERN_COLON
  | 59 => some PATTERN_SEMICOLON
  | 61 => some PATTERN_EQUALS
  | 43 => some PATTERN_PLUS
  | 45 => some PATTERN_HYPHEN
  | 95 => some PATTERN_UNDERSCORE
  | 34 => some PATTERN_DQUOTE
  | 36 => some PATTERN_DOLLAR
  | 64 => some PATTERN_AT
  | _ => none

/-- The char::is_alphabetic test of MorseTrie::build, restricted to ASCII:
only ASCII bytes carry Morse patterns, so bytes at or above 128 (for which
the Rust test may differ) never reach this test with a pattern in hand. -/
def byte_is_alphabetic (b : UInt8) : Bool :=
  (65 ≤ b.toNat && b.toNat ≤ 90) || (97 ≤ b.toNat && b.toNat ≤ 122)

/-- MorseTrie::build: insert every non-alphabetic character with a pattern
(bytes 0 through 255 in order), then the uppercase letters A through Z, so
that letters own any shared path. -/
def MorseTrie.build : MorseTrie :=
  let t0 : MorseTrie := ⟨[TrieNode.new]⟩
  let t1 := (List.range 256).foldl
    (fun t ch =>
      match get_morse_pattern (UInt8.ofNat ch) with
      | some pattern =>
        if byte_is_alphabetic (UInt8.ofNat ch) then t
        else t.add_pattern pattern (Char.ofNat ch)
      | none => t) t0
  (List.range 26).foldl
    (fun t i =>
      match get_morse_pattern (UInt8.ofNat (65 + i)) with
      | some pattern => t.add_pattern pattern (Char.ofNat (65 + i))
      | none => t) t1

/-- get_morse_trie: the process-lifetime trie singleton, modelled as a plain
definition. -/
def get_morse_trie : MorseTrie := MorseTrie.build

/-- A trigram table: keys of three bytes with a cost each. -/
def TrigramTable : Type := List ((UInt8 × UInt8 × UInt8) × ℝ)

/-- DEFAULT_UNKNOWN_TRIGRAM_COST from interpret.rs. -/
def DEFAULT_UNKNOWN_TRIGRAM_COST : ℝ := 8.0

/-- LanguageModel from interpret.rs: the trigram HashMap is modelled as a
lookup function together with the default cost for unseen trigrams. -/
structure LanguageModel where
  trigrams : UInt8 × UInt8 × UInt8 → Option ℝ
  default_cost : ℝ

/-- LanguageModel::add_trigram_cost: HashMap insert. -/
def LanguageModel.add_trigram_cost (lm : LanguageModel) (trigram : UInt8 × UInt8 × UInt8)
    (cost : ℝ) : LanguageModel :=
  { lm with trigrams := fun k => if k = trigram then some cost else lm.trigrams k }

/-- LanguageModel::load_english_trigrams.  Modelled from the spec: the
embedded English trigram frequency data is generated at build time by
build.rs from english_3grams.csv, a data file that is not part of the source
tree; the table contents are therefore a parameter (spec: roughly the top
2000 English trigrams with costs capped at 4.0).  Loading inserts each entry
into the map. -/
def LanguageModel.load_english_trigrams (lm : LanguageModel) (data : TrigramTable) :
    LanguageModel :=
  data.foldl (fun acc p => acc.add_trigram_cost p.1 p.2) lm

/-- The byte of an ASCII character. -/
def charByte (c : Char) : UInt8 := UInt8.ofNat c.toNat

/-- LanguageModel::new: start from the default cost, load the English
trigram data, then add the hand-picked morse-specific trigrams. -/
def LanguageModel.new (english_data : TrigramTable) : LanguageModel :=
  let lm : LanguageModel :=
    { trigrams := fun _ => none, default_cost := DEFAULT_UNKNOWN_TRIGRAM_COST }
  let lm := lm.load_english_trigrams english_data
  let lm := lm.add_trigram_cost (charByte 'S', charByte 'O', charByte 'S') 0.5
  let lm := lm.add_trigram_cost (charByte 'C', charByte 'Q', charByte 'C') 0.8
  let lm := lm.add_trigram_cost (charByte 'C', charByte 'Q', charByte ' ') 0.3
  let lm := lm.add_trigram_cost (charByte 'Q', charByte 'S', charByte 'O') 1.0
  lm

/-- LanguageModel::get_cost: cost of completing a trigram, falling back to
the default cost. -/
def LanguageModel.get_cost (lm : LanguageModel) (context : UInt8 × UInt8)
    (next_char : UInt8) : ℝ :=
  (lm.trigrams (context.1, context.2, next_char)).getD lm.default_cost

/-- get_language_model: the process-lifetime singleton, parameterized by the
build-generated trigram data. -/
def get_language_model (english_data : TrigramTable) : LanguageModel :=
  LanguageModel.new english_data

/-- DEFAULT_BEAM_SIZE from interpret.rs. -/
def DEFAULT_BEAM_SIZE : Nat := 64

/-- DEFAULT_SPACE_PENALTY from interpret.rs. -/
def DEFAULT_SPACE_PENALTY : ℝ := 0.3

/-- DEFAULT_LM_WEIGHT from interpret.rs. -/
def DEFAULT_LM_WEIGHT : ℝ := 2.0

/-- DEFAULT_LATE_INTRA_PENALTY from interpret.rs. -/
def DEFAULT_LATE_INTRA_PENALTY : ℝ := 0.5

/-- DEFAULT_LONG_INTER_PENALTY from interpret.rs. -/
def DEFAULT_LONG_INTER_PENALTY : ℝ := 0.6

/-- LATE_INTRA_THRESHOLD_MULTIPLIER from interpret.rs. -/
def LATE_INTRA_THRESHOLD_MULTIPLIER : ℝ := 2.0

/-- LONG_INTER_THRESHOLD_MULTIPLIER from interpret.rs. -/
def LONG_INTER_THRESHOLD_MULTIPLIER : ℝ := 4.0

/-- LONG_WORD_LENGTH_THRESHOLD from interpret.rs. -/
def LONG_WORD_LENGTH_THRESHOLD : Nat := 3

/-- Hypothesis from interpret.rs: one beam-search decoding path. -/
structure Hypothesis where
  trie_node : Nat
  lm_context : UInt8 × UInt8
  pending_word_len : Nat
  cost : ℝ
  text : List Char

/-- Hypothesis::new: the initial hypothesis at the trie root with a
two-space language-model context, zero cost and empty text. -/
def Hypothesis.new : Hypothesis :=
  { trie_node := MorseTrie.ROOT
    lm_context := (charByte ' ', charByte ' ')
    pending_word_len := 0
    cost := 0
    text := [] }

/-- Hypothesis::add_character: append the character, pay the given cost,
shift the trigram context (non-ASCII turns into a question mark byte),
update the pending word length and return to the trie root. -/
def Hypothesis.add_character (h : Hypothesis) (ch : Char) (lm_cost : ℝ) : Hypothesis :=
  { h with
    text := h.text ++ [ch]
    cost := h.cost + lm_cost
    lm_context := (h.lm_context.2, if ch.toNat ≤ 127 then UInt8.ofNat ch.toNat else charByte '?')
    pending_word_len := if ch = ' ' then 0 else h.pending_word_len + 1
    trie_node := MorseTrie.ROOT }

/-- BeamSearchParams from interpret.rs. -/
structure BeamSearchParams where
  beam_size : Nat
  space_penalty : ℝ
  lm_weight : ℝ
  late_intra_penalty : ℝ
  long_inter_penalty : ℝ

/-- The Default instance of BeamSearchParams. -/
def BeamSearchParams.default : BeamSearchParams :=
  { beam_size := DEFAULT_BEAM_SIZE
    space_penalty := DEFAULT_SPACE_PENALTY
    lm_weight := DEFAULT_LM_WEIGHT
    late_intra_penalty := DEFAULT_LATE_INTRA_PENALTY
    long_inter_penalty := DEFAULT_LONG_INTER_PENALTY }

/-- BeamSearchDecoder from interpret.rs. -/
structure BeamSearchDecoder where
  hypotheses : List Hypothesis
  params : BeamSearchParams
  trie : MorseTrie
  lm : LanguageModel
  timing_tracker : TimingTracker
  timing_model : ProbabilisticTimingModel

/-- BeamSearchDecoder::new: seed the tracker from the batch dot duration,
build the timing model with the clustered gap thresholds, and start from the
single initial hypothesis (the Rust truncate(1) is the take 1). -/
def BeamSearchDecoder.new (english_data : TrigramTable) (timings : MorseTimings)
    (params : BeamSearchParams) : BeamSearchDecoder :=
  let timing_tracker := TimingTracker.new timings.dot_duration
  let timing_model :=
    ProbabilisticTimingModel.from_tracker_and_clusters timing_tracker timings.gap_clusters
  { hypotheses := [Hypothesis.new].take 1
    params := params
    trie := get_morse_trie
    lm := get_language_model english_data
    timing_tracker := timing_tracker
    timing_model := timing_model }

/-- The break-on-first-match cost lookup loop of the decoder over element
costs: the cost stored for the given element, adding nothing when the
element is absent (the Rust loop then never adds anything). -/
def lookupElementCost (costs : List (MorseElementType × ℝ)) (element : MorseElementType) : ℝ :=
  ((costs.find? fun p => decide (p.1 = element)).map fun p => p.2).getD 0

/-- The break-on-first-match cost lookup loop of the decoder over gap costs. -/
def lookupGapCost (costs : List (GapType × ℝ)) (gap_type : GapType) : ℝ :=
  ((costs.find? fun p => decide (p.1 = gap_type)).map fun p => p.2).getD 0

/-- Rust sort_by on hypothesis costs with partial_cmp (ascending). -/
def sortHypothesesByCost (l : List Hypothesis) : List Hypothesis :=
  @List.insertionSort _ (fun a b => a.cost ≤ b.cost) (fun _ _ => Real.decidableLE _ _) l

/-- BeamSearchDecoder::prune_beam: nothing to do within the beam size,
otherwise sort by ascending cost and keep the beam_size cheapest. -/
def BeamSearchDecoder.prune_beam (d : BeamSearchDecoder) : BeamSearchDecoder :=
  if d.hypotheses.length ≤ d.params.beam_size then d
  else { d with hypotheses := (sortHypothesesByCost d.hypotheses).take d.params.beam_size }

/-- BeamSearchDecoder::process_on_signal: classify the ON duration, advance
every hypothesis through the trie (hypotheses without a transition are
dropped), charge the classified element cost, then prune. -/
def BeamSearchDecoder.process_on_signal (d : BeamSearchDecoder) (signal : MorseSignal) :
    BeamSearchDecoder :=
  let element := d.timing_model.classify_element_min_cost signal.seconds
  let new_hypotheses := d.hypotheses.filterMap fun hyp =>
    match d.trie.transition hyp.trie_node element with
    | some next_node =>
      some { hyp with
        trie_node := next_node
        cost := hyp.cost
          + lookupElementCost (d.timing_model.element_costs signal.seconds) element }
    | none => none
  BeamSearchDecoder.prune_beam { d with hypotheses := new_hypotheses }

/-- The successor hypotheses one existing hypothesis contributes in
BeamSearchDecoder::process_off_signal, in push order: the branches of the
match on the gap type, followed by the continue-as-intra hedge branch for
inter-character gaps. -/
def offSignalBranches (d : BeamSearchDecoder) (gap_type : GapType) (signal : MorseSignal)
    (hyp : Hypothesis) : List Hypothesis :=
  let gap_costs := d.timing_model.gap_costs signal.seconds
  let main :=
    match gap_type with
    | GapType.IntraCharacter =>
      let new_hyp :=
        { hyp with cost := hyp.cost + lookupGapCost gap_costs GapType.IntraCharacter }
      let new_hyp :=
        if d.timing_tracker.get_t * LATE_INTRA_THRESHOLD_MULTIPLIER < signal.seconds then
          { new_hyp with cost := new_hyp.cost + d.params.late_intra_penalty }
        else new_hyp
      [new_hyp]
    | GapType.InterCharacter =>
      let completed :=
        match d.trie.get_terminal hyp.trie_node with
        | some ch =>
          let lm_cost := d.lm.get_cost hyp.lm_context (charByte ch) * d.params.lm_weight
          let new_hyp := hyp.add_character ch lm_cost
          [{ new_hyp with
              cost := new_hyp.cost + lookupGapCost gap_costs GapType.InterCharacter }]
        | none => []
      let spaced :=
        if LONG_WORD_LENGTH_THRESHOLD < hyp.pending_word_len then
          match d.trie.get_terminal hyp.trie_node with
          | some ch =>
            let ch_cost := d.lm.get_cost hyp.lm_context (charByte ch) * d.params.lm_weight
            let space_hyp := hyp.add_character ch ch_cost
            let space_cost :=
              d.lm.get_cost space_hyp.lm_context (charByte ' ') * d.params.lm_weight
            let space_hyp := space_hyp.add_character ' ' (space_cost + d.params.space_penalty)
            [{ space_hyp with
                cost := space_hyp.cost + lookupGapCost gap_costs GapType.InterCharacter }]
          | none => []
        else []
      completed ++ spaced
    | GapType.Word =>
      match d.trie.get_terminal hyp.trie_node with
      | some ch =>
        let ch_cost := d.lm.get_cost hyp.lm_context (charByte ch) * d.params.lm_weight
        let new_hyp := hyp.add_character ch ch_cost
        let space_cost := d.lm.get_cost new_hyp.lm_context (charByte ' ') * d.params.lm_weight
        let new_hyp := new_hyp.add_character ' ' space_cost
        [{ new_hyp with cost := new_hyp.cost + lookupGapCost gap_costs GapType.Word }]
      | none => []
  let continued :=
    if gap_type = GapType.InterCharacter then
      let continue_hyp :=
        { hyp with cost := hyp.cost + lookupGapCost gap_costs GapType.IntraCharacter }
      let continue_hyp :=
        if d.timing_tracker.get_t * LONG_INTER_THRESHOLD_MULTIPLIER < signal.seconds then
          { continue_hyp with cost := continue_hyp.cost + d.params.long_inter_penalty }
        else continue_hyp
      [continue_hyp]
    else []
  main ++ continued

/-- BeamSearchDecoder::process_off_signal: classify the OFF duration and
expand every hypothesis into its completion/space/hedge branches, then
prune. -/
def BeamSearchDecoder.process_off_signal (d : BeamSearchDecoder) (signal : MorseSignal) :
    BeamSearchDecoder :=
  let gap_type := d.timing_model.classify_gap_min_cost signal.seconds
  let new_hypotheses := d.hypotheses.flatMap (offSignalBranches d gap_type signal)
  BeamSearchDecoder.prune_beam { d with hypotheses := new_hypotheses }

/-- The character-completion step of BeamSearchDecoder::finalize on one
hypothesis: complete a trailing terminal character, if any. -/
def finalizeHypothesis (d : BeamSearchDecoder) (hyp : Hypothesis) : Hypothesis :=
  match d.trie.get_terminal hyp.trie_node with
  | some ch =>
    hyp.add_character ch (d.lm.get_cost hyp.lm_context (charByte ch) * d.params.lm_weight)
  | none => hyp

/-- Iterator::min_by on hypothesis cost with partial_cmp: the first
minimum-cost element, or none on an empty list. -/
def minByCost (l : List Hypothesis) : Option Hypothesis :=
  match l with
  | [] => none
  | h :: t => some (t.foldl (fun acc x => if x.cost < acc.cost then x else acc) h)

/-- BeamSearchDecoder::finalize: complete trailing terminal characters and
return the cheapest hypothesis, or the fresh initial hypothesis when the
beam is empty. -/
def BeamSearchDecoder.finalize (d : BeamSearchDecoder) : Hypothesis :=
  (minByCost (d.hypotheses.map (finalizeHypothesis d))).getD Hypothesis.new

/-- BeamSearchDecoder::update_timing: ON signals update the tracker and
rebuild the timing model with the same gap clusters; OFF signals change
nothing. -/
def BeamSearchDecoder.update_timing (d : BeamSearchDecoder) (signal : MorseSignal) :
    BeamSearchDecoder :=
  if signal.is_on then
    let timing_tracker := d.timing_tracker.update_from_on_signal signal.seconds
    { d with
      timing_tracker := timing_tracker
      timing_model := ProbabilisticTimingModel.from_tracker_and_clusters
        timing_tracker d.timing_model.gap_clusters }
  else d

/-- One iteration of the signal loop of parse_morse_signals_beam_search:
update timing, then process the signal as ON or OFF. -/
def stepSignal (d : BeamSearchDecoder) (signal : MorseSignal) : BeamSearchDecoder :=
  let d1 := d.update_timing signal
  if signal.is_on then d1.process_on_signal signal else d1.process_off_signal signal

/-- The signal loop of parse_morse_signals_beam_search: process the signals
in order, stopping early (before counting the current signal) when any
hypothesis text reaches the output length cap; returns the final decoder
state and the number of signals counted into signals_processed. -/
def parseLoop (d : BeamSearchDecoder) (signals : List MorseSignal) (max_output_length : Nat)
    (processed : Int) : BeamSearchDecoder × Int :=
  match signals with
  | [] => (d, processed)
  | signal :: rest =>
    let d2 := stepSignal d signal
    if d2.hypotheses.any fun h => decide (max_output_length ≤ h.text.length) then (d2, processed)
    else parseLoop d2 rest max_output_length (processed + 1)

/-- The confidence computation of parse_morse_signals_beam_search: zero for
empty text, otherwise piecewise linear in the average cost per character and
floored at zero (the Rust .max(0.0)). -/
def confidenceFromCost (cost : ℝ) (text : List Char) : ℝ :=
  if text.isEmpty then 0
  else
    let avg_cost_per_char := cost / (text.length : ℝ)
    max (if avg_cost_per_char < 0 then
          0.95 + min ((-avg_cost_per_char) * 0.005) 0.05
        else if avg_cost_per_char ≤ 3.0 then
          0.95 - avg_cost_per_char * 0.033
        else if avg_cost_per_char ≤ 8.0 then
          0.85 - (avg_cost_per_char - 3.0) * 0.02
        else
          0.7 - (avg_cost_per_char - 8.0) * 0.01) 0

/-- parse_morse_signals_beam_search from interpret.rs: run the beam search
over the signals, then derive text, confidence and the counters from the
best hypothesis. -/
def parse_morse_signals_beam_search (english_data : TrigramTable) (signals : List MorseSignal)
    (timings : MorseTimings) (max_output_length : Nat) : MorseInterpretResult :=
  if signals.isEmpty then
    { text := [], confidence := 0, signals_processed := 0, patterns_recognized := 0 }
  else
    let params := BeamSearchParams.default
    let decoder := BeamSearchDecoder.new english_data timings params
    let final := parseLoop decoder signals max_output_length 0
    let best_hypothesis := final.1.finalize
    let text := best_hypothesis.text
    let confidence := confidenceFromCost best_hypothesis.cost text
    { text := text
      confidence := confidence
      signals_processed := final.2
      patterns_recognized := ((text.filter fun c => c != ' ').length : Int) }

/-- The Rust cast of max_output_length (i32) to usize in morse_interpret:
sign-extend to 64 bits and reinterpret as unsigned. -/
def usizeOfI32 (n : Int) : Nat := (n % (2 ^ 64)).toNat

/-- morse_interpret from interpret.rs: empty input decodes trivially;
otherwise the timing analysis may fail with the input error, and its result
feeds the beam search. -/
def morse_interpret (english_data : TrigramTable) (signals : List MorseSignal)
    (params : MorseInterpretParams) : Except String MorseInterpretResult :=
  if signals.isEmpty then
    Except.ok { text := [], confidence := 0, signals_processed := 0, patterns_recognized := 0 }
  else
    (MorseTimings.from_signals signals).map fun timings =>
      parse_morse_signals_beam_search english_data signals timings
        (usizeOfI32 params.max_output_length)

/-- A decoder state whose hypothesis beam has become empty (as after every
hypothesis failed a trie transition). -/
def clearBeam (d : BeamSearchDecoder) : BeamSearchDecoder := { d with hypotheses := [] }

/-- Modelled from the spec: the negative log-likelihood of a duration under
a log-normal distribution whose log-space mean is mu and log-space standard
deviation is sigma; used to compare the implemented cost tables against the
distribution named by the spec. -/
def lognormalNegLogLikelihood (d mu sigma : ℝ) : ℝ :=
  ((Real.log d - mu) / sigma) ^ 2 / 2 + Real.log d + Real.log (sigma * Real.sqrt (2 * Real.pi))

/-- A concrete probabilistic timing model: built by the program constructor
from a fresh tracker of unit time 1 and cluster thresholds 2 and 5; used to
evaluate the cost tables on concrete durations. -/
def pmExample : ProbabilisticTimingModel :=
  ProbabilisticTimingModel.from_tracker_and_clusters (TimingTracker.new 1)
    { intra_to_inter_threshold := 2, inter_to_word_threshold := 5 }

/-- prune_beam never retains more hypotheses than the beam size: within the
bound the list is returned as is, beyond it the sorted list is truncated. -/
lemma prune_beam_length_le (d : BeamSearchDecoder) :
    d.prune_beam.hypotheses.length ≤ d.params.beam_size := by
  unfold BeamSearchDecoder.prune_beam
  by_cases h : d.hypotheses.length ≤ d.params.beam_size
  · rw [if_pos h]
    exact h
  · rw [if_neg h]
    simp [List.length_take]

/-- process_on_signal ends in prune_beam, so its beam is bounded. -/
lemma process_on_signal_length_le (d : BeamSearchDecoder) (s : MorseSignal) :
    (d.process_on_signal s).hypotheses.length ≤ d.params.beam_size := by
  unfold BeamSearchDecoder.process_on_signal
  exact prune_beam_length_le _

/-- process_off_signal ends in prune_beam, so its beam is bounded. -/
lemma process_off_signal_length_le (d : BeamSearchDecoder) (s : MorseSignal) :
    (d.process_off_signal s).hypotheses.length ≤ d.params.beam_size := by
  unfold BeamSearchDecoder.process_off_signal
  exact prune_beam_length_le _

/-- C3: after prune_beam runs, the number of retained hypotheses is at most
the configured beam size; consequently the hypothesis list length never
exceeds the beam size after processing any ON or OFF signal; and the default
beam size is 64. -/
theorem beam_pruning_bounds_hypotheses :
    (∀ d : BeamSearchDecoder, d.prune_beam.hypotheses.length ≤ d.params.beam_size) ∧
    (∀ (d : BeamSearchDecoder) (s : MorseSignal),
      (d.process_on_signal s).hypotheses.length ≤ d.params.beam_size) ∧
    (∀ (d : BeamSearchDecoder) (s : MorseSignal),
      (d.process_off_signal s).hypotheses.length ≤ d.params.beam_size) ∧
    BeamSearchParams.default.beam_size = 64 :=
  ⟨prune_beam_length_le, process_on_signal_length_le, process_off_signal_length_le, rfl⟩

/-- C7: morse_interpret on the empty signal sequence returns Ok with empty
text, confidence 0, signals_processed 0 and patterns_recognized 0, for any
parameters and any trigram table: the empty input does not reach the input
error. -/
theorem morse_interpret_empty_input (e : TrigramTable) (params : MorseInterpretParams) :
    morse_interpret e [] params =
      Except.ok { text := [], confidence := 0, signals_processed := 0,
                  patterns_recognized := 0 } := rfl

/-- In every parse result the patterns_recognized field is computed as the
non-space character count of the text field. -/
lemma parse_patterns_counts_nonspace (e : TrigramTable) (signals : List MorseSignal)
    (t : MorseTimings) (m : Nat) :
    (parse_morse_signals_beam_search e signals t m).patterns_recognized =
      (((parse_morse_signals_beam_search e signals t m).text.filter
        fun c => c != ' ').length : Int) := by
  unfold parse_morse_signals_beam_search
  by_cases h : signals.isEmpty = true
  · rw [if_pos h]
    rfl
  · rw [if_neg h]

/-- C10: whenever morse_interpret returns Ok, the patterns_recognized field
of the result equals the number of non-space characters of the returned
text. -/
theorem patterns_recognized_counts_nonspace (e : TrigramTable) (signals : List MorseSignal)
    (params : MorseInterpretParams) :
    (match morse_interpret e signals params with
     | Except.ok r =>
        r.patterns_recognized = ((r.text.filter fun c => c != ' ').length : Int)
     | Except.error _ => True) := by
  unfold morse_interpret
  by_cases h : signals.isEmpty = true
  · rw [if_pos h]
    rfl
  · rw [if_neg h]
    cases hfs : MorseTimings.from_signals signals with
    | error msg => simp [Except.map, hfs]
    | ok t =>
      simp only [Except.map, hfs]
      exact parse_patterns_counts_nonspace e signals t (usizeOfI32 params.max_output_length)

/-- The confidence formula always lands in the unit interval: every branch
is at most 1 and the result is floored at 0. -/
lemma confidenceFromCost_nonneg_le_one (cost : ℝ) (text : List Char) :
    0 ≤ confidenceFromCost cost text ∧ confidenceFromCost cost text ≤ 1 := by
  unfold confidenceFromCost
  by_cases h : text.isEmpty = true
  · rw [if_pos h]
    norm_num
  · rw [if_neg h]
    dsimp only
    refine ⟨le_max_right _ _, max_le ?_ (by norm_num)⟩
    rcases lt_or_le (cost / (text.length : ℝ)) 0 with h1 | h1
    · rw [if_pos h1]
      have hm := min_le_right ((-(cost / (text.length : ℝ))) * 0.005) 0.05
      linarith
    · rw [if_neg (not_lt.mpr h1)]
      rcases le_or_lt (cost / (text.length : ℝ)) 3.0 with h2 | h2
      · rw [if_pos h2]
        nlinarith
      · rw [if_neg (not_le.mpr h2)]
        rcases le_or_lt (cost / (text.length : ℝ)) 8.0 with h3 | h3
        · rw [if_pos h3]
          nlinarith
        · rw [if_neg (not_le.mpr h3)]
          nlinarith

/-- Every parse result carries a confidence in the unit interval. -/
lemma parse_confidence_in_range (e : TrigramTable) (signals : List MorseSignal)
    (t : MorseTimings) (m : Nat) :
    0 ≤ (parse_morse_signals_beam_search e signals t m).confidence ∧
      (parse_morse_signals_beam_search e signals t m).confidence ≤ 1 := by
  unfold parse_morse_signals_beam_search
  by_cases h : signals.isEmpty = true
  · rw [if_pos h]
    norm_num
  · rw [if_neg h]
    exact confidenceFromCost_nonneg_le_one _ _

/-- C9: whenever morse_interpret returns Ok, the confidence field of the
result lies in the closed interval from 0 to 1. -/
theorem confidence_in_unit_interval (e : TrigramTable) (signals : List MorseSignal)
    (params : MorseInterpretParams) :
    (match morse_interpret e signals params with
     | Except.ok r => 0 ≤ r.confidence ∧ r.confidence ≤ 1
     | Except.error _ => True) := by
  unfold morse_interpret
  by_cases h : signals.isEmpty = true
  · rw [if_pos h]
    exact ⟨le_refl 0, by norm_num⟩
  · rw [if_neg h]
    cases hfs : MorseTimings.from_signals signals with
    | error msg => simp [Except.map, hfs]
    | ok t =>
      simp only [Except.map, hfs]
      exact parse_confidence_in_range e signals t (usizeOfI32 params.max_output_length)

/-- Pruning an empty beam leaves it empty. -/
lemma prune_beam_empty (d : BeamSearchDecoder) (h : d.hypotheses = []) :
    d.prune_beam.hypotheses = [] := by
  unfold BeamSearchDecoder.prune_beam
  rw [if_pos]
  · exact h
  · rw [h]
    exact Nat.zero_le _

/-- An ON signal maps an empty beam to an empty beam. -/
lemma process_on_signal_empty (d : BeamSearchDecoder) (s : MorseSignal)
    (h : d.hypotheses = []) : (d.process_on_signal s).hypotheses = [] := by
  unfold BeamSearchDecoder.process_on_signal
  exact prune_beam_empty _ (by rw [h]; rfl)

/-- An OFF signal maps an empty beam to an empty beam. -/
lemma process_off_signal_empty (d : BeamSearchDecoder) (s : MorseSignal)
    (h : d.hypotheses = []) : (d.process_off_signal s).hypotheses = [] := by
  unfold BeamSearchDecoder.process_off_signal
  exact prune_beam_empty _ (by rw [h]; rfl)

/-- update_timing does not touch the beam. -/
lemma update_timing_hypotheses (d : BeamSearchDecoder) (s : MorseSignal) :
    (d.update_timing s).hypotheses = d.hypotheses := by
  unfold BeamSearchDecoder.update_timing
  by_cases h : s.is_on = true
  · rw [if_pos h]
  · rw [if_neg h]

/-- One loop step maps an empty beam to an empty beam. -/
lemma stepSignal_empty (d : BeamSearchDecoder) (s : MorseSignal)
    (h : d.hypotheses = []) : (stepSignal d s).hypotheses = [] := by
  unfold stepSignal
  have h1 : (d.update_timing s).hypotheses = [] := by
    rw [update_timing_hypotheses]
    exact h
  by_cases hs : s.is_on = true
  · rw [if_pos hs]
    exact process_on_signal_empty _ _ h1
  · rw [if_neg hs]
    exact process_off_signal_empty _ _ h1

/-- Once the beam is empty, the whole remaining signal loop keeps it empty. -/
lemma parseLoop_empty (signals : List MorseSignal) (d : BeamSearchDecoder)
    (maxLen : Nat) (n : Int) (h : d.hypotheses = []) :
    (parseLoop d signals maxLen n).1.hypotheses = [] := by
  induction signals generalizing d n with
  | nil => exact h
  | cons s rest ih =>
    unfold parseLoop
    have h2 : (stepSignal d s).hypotheses = [] := stepSignal_empty d s h
    by_cases hb :
        ((stepSignal d s).hypotheses.any fun hh => decide (maxLen ≤ hh.text.length)) = true
    · rw [if_pos hb]
      exact h2
    · rw [if_neg hb]
      exact ih _ _ h2

/-- Finalizing an empty beam yields the fresh initial hypothesis. -/
lemma finalize_empty (d : BeamSearchDecoder) (h : d.hypotheses = []) :
    d.finalize = Hypothesis.new := by
  unfold BeamSearchDecoder.finalize
  rw [h]
  rfl

/-- C8: an empty hypothesis beam degrades gracefully instead of failing:
processing any further ON or OFF signal from an empty beam leaves it empty,
the whole remaining signal loop keeps it empty, and finalize on an empty
beam returns the initial hypothesis, whose text is empty, so the decode
produces an empty-text result rather than an error. -/
theorem empty_beam_degrades_gracefully :
    (∀ (d : BeamSearchDecoder) (s : MorseSignal),
      ((clearBeam d).process_on_signal s).hypotheses = []) ∧
    (∀ (d : BeamSearchDecoder) (s : MorseSignal),
      ((clearBeam d).process_off_signal s).hypotheses = []) ∧
    (∀ (d : BeamSearchDecoder) (signals : List MorseSignal) (maxLen : Nat) (n : Int),
      (parseLoop (clearBeam d) signals maxLen n).1.hypotheses = []) ∧
    (∀ d : BeamSearchDecoder, (clearBeam d).finalize = Hypothesis.new) ∧
    (∀ (d : BeamSearchDecoder) (signals : List MorseSignal) (maxLen : Nat) (n : Int),
      (parseLoop (clearBeam d) signals maxLen n).1.finalize.text = []) ∧
    Hypothesis.new.text = [] := by
  refine ⟨?_, ?_, ?_, ?_, ?_, rfl⟩
  · exact fun d s => process_on_signal_empty _ s rfl
  · exact fun d s => process_off_signal_empty _ s rfl
  · exact fun d signals maxLen n => parseLoop_empty signals _ maxLen n rfl
  · exact fun d => finalize_empty _ rfl
  · intro d signals maxLen n
    rw [finalize_empty _ (parseLoop_empty signals _ maxLen n rfl)]
    rfl

/-- The filtered ON-duration list of from_signals is empty exactly when no
ON signal reaches the noise threshold. -/
lemma on_durations_isEmpty_iff (signals : List MorseSignal) :
    ((signals.filter fun s => s.is_on && decide (NOISE_THRESHOLD ≤ s.seconds)).map
      (fun s => s.seconds)).isEmpty = true ↔
      ∀ s ∈ signals, s.is_on = true → s.seconds < NOISE_THRESHOLD := by
  rw [List.isEmpty_iff, List.map_eq_nil_iff, List.filter_eq_nil_iff]
  constructor
  · intro h s hs hon
    have h2 := h s hs
    simp [hon] at h2
    exact h2
  · intro h s hs
    by_cases hon : s.is_on = true
    · simp [hon]
      exact h s hs hon
    · simp [hon]

/-- An ON signal at or above the noise threshold exists exactly when it is
not the case that all ON signals are below it. -/
lemma exists_valid_on_iff (signals : List MorseSignal) :
    (∃ s ∈ signals, s.is_on = true ∧ NOISE_THRESHOLD ≤ s.seconds) ↔
      ¬ ∀ s ∈ signals, s.is_on = true → s.seconds < NOISE_THRESHOLD := by
  push_neg
  simp [not_lt]

/-- from_signals fails exactly when every ON signal is below the noise
threshold. -/
lemma from_signals_error_iff (signals : List MorseSignal) :
    (∃ msg, MorseTimings.from_signals signals = Except.error msg) ↔
      ∀ s ∈ signals, s.is_on = true → s.seconds < NOISE_THRESHOLD := by
  unfold MorseTimings.from_signals
  by_cases h : ((signals.filter fun s => s.is_on && decide (NOISE_THRESHOLD ≤ s.seconds)).map
      (fun s => s.seconds)).isEmpty = true
  · rw [if_pos h]
    constructor
    · intro _
      exact (on_durations_isEmpty_iff signals).mp h
    · intro _
      exact ⟨_, rfl⟩
  · rw [if_neg h]
    constructor
    · rintro ⟨msg, hmsg⟩
      exact Except.noConfusion hmsg
    · intro hall
      exact absurd ((on_durations_isEmpty_iff signals).mpr hall) h

/-- from_signals succeeds exactly when some ON signal reaches the noise
threshold. -/
lemma from_signals_ok_iff (signals : List MorseSignal) :
    (∃ t, MorseTimings.from_signals signals = Except.ok t) ↔
      ∃ s ∈ signals, s.is_on = true ∧ NOISE_THRESHOLD ≤ s.seconds := by
  unfold MorseTimings.from_signals
  by_cases h : ((signals.filter fun s => s.is_on && decide (NOISE_THRESHOLD ≤ s.seconds)).map
      (fun s => s.seconds)).isEmpty = true
  · rw [if_pos h]
    constructor
    · rintro ⟨t, ht⟩
      exact Except.noConfusion ht
    · intro hx
      exact absurd ((on_durations_isEmpty_iff signals).mp h)
        ((exists_valid_on_iff signals).mp hx)
  · rw [if_neg h]
    constructor
    · intro _
      refine (exists_valid_on_iff signals).mpr ?_
      intro hall
      exact h ((on_durations_isEmpty_iff signals).mpr hall)
    · intro _
      exact ⟨_, rfl⟩

/-- C1: morse_interpret returns an error exactly when the signal sequence
is non-empty and contains no ON signal whose duration reaches the 0.01
second noise threshold; equivalently it returns Ok exactly when the input
is empty or contains such an ON signal, so that is the only failing path. -/
theorem morse_interpret_error_iff (e : TrigramTable) (signals : List MorseSignal)
    (params : MorseInterpretParams) :
    ((∃ msg, morse_interpret e signals params = Except.error msg) ↔
      (signals ≠ [] ∧ ∀ s ∈ signals, s.is_on = true → s.seconds < NOISE_THRESHOLD)) ∧
    ((morse_interpret e signals params).isOk = true ↔
      (signals = [] ∨ ∃ s ∈ signals, s.is_on = true ∧ NOISE_THRESHOLD ≤ s.seconds)) := by
  unfold morse_interpret
  by_cases hemp : signals.isEmpty = true
  · have hnil : signals = [] := List.isEmpty_iff.mp hemp
    rw [if_pos hemp]
    constructor
    · simp [hnil]
    · exact iff_of_true rfl (Or.inl hnil)
  · have hnil : signals ≠ [] := fun hc => hemp (List.isEmpty_iff.mpr hc)
    rw [if_neg hemp]
    cases hfs : MorseTimings.from_signals signals with
    | error msg =>
      have hall : ∀ s ∈ signals, s.is_on = true → s.seconds < NOISE_THRESHOLD :=
        (from_signals_error_iff signals).mp ⟨msg, hfs⟩
      constructor
      · exact iff_of_true ⟨msg, rfl⟩ ⟨hnil, hall⟩
      · refine iff_of_false (fun hc => Bool.false_ne_true hc) ?_
        rintro (hc | hc)
        · exact hnil hc
        · exact (exists_valid_on_iff signals).mp hc hall
    | ok t =>
      have hex : ∃ s ∈ signals, s.is_on = true ∧ NOISE_THRESHOLD ≤ s.seconds :=
        (from_signals_ok_iff signals).mp ⟨t, hfs⟩
      constructor
      · refine iff_of_false ?_ ?_
        · rintro ⟨msg, hmsg⟩
          exact Except.noConfusion hmsg
        · rintro ⟨-, hall⟩
          exact (exists_valid_on_iff signals).mp hex hall
      · exact iff_of_true rfl (Or.inr hex)

/-- The initial tracker for unit time 1 has log unit time 0. -/
lemma tracker_new_one_ln_t : (TimingTracker.new 1).ln_t = 0 := by
  unfold TimingTracker.new
  rw [max_eq_left (by norm_num : (1e-6 : ℝ) ≤ 1)]
  exact Real.log_one

/-- The initial tracker carries the default smoothing factor 0.1. -/
lemma tracker_new_alpha (t0 : ℝ) : (TimingTracker.new t0).alpha = 0.1 := rfl

/-- C4 (amended): for every duration of at least 1e-6 (the clamp the code
applies before taking logarithms) and every tracker whose smoothing factor
is the constructed 0.1, one update sets ln_t to
(1 - 0.1) * ln_t + 0.1 * ln(s), where the sample s is the duration itself
when its log is closer to ln_t than to ln_t + ln 3 (it looks like a dot) and
a third of the duration otherwise (it looks like a dash). -/
theorem tracker_update_ewma (tr : TimingTracker) (d : ℝ) (halpha : tr.alpha = 0.1)
    (hd : (1e-6 : ℝ) ≤ d) :
    (tr.update_from_on_signal d).ln_t =
      (1 - 0.1) * tr.ln_t + 0.1 * Real.log
        (if |Real.log d - tr.ln_t| < |Real.log d - (tr.ln_t + Real.log 3)| then d
         else d / 3) := by
  have hdpos : (0 : ℝ) < d := lt_of_lt_of_le (by norm_num) hd
  unfold TimingTracker.update_from_on_signal
  dsimp only
  rw [max_eq_left hd, halpha]
  by_cases hc : |Real.log d - tr.ln_t| < |Real.log d - (tr.ln_t + Real.log 3)|
  · rw [if_pos hc, if_pos hc]
  · rw [if_neg hc, if_neg hc, Real.log_div (ne_of_gt hdpos) (by norm_num)]

/-- Witness for the amended C4 at the tracker of unit time 1 and duration 1. -/
theorem tracker_update_ewma_witness :
    (1e-6 : ℝ) ≤ 1 ∧
    ((TimingTracker.new 1).update_from_on_signal 1).ln_t =
      (1 - 0.1) * (TimingTracker.new 1).ln_t + 0.1 * Real.log
        (if |Real.log 1 - (TimingTracker.new 1).ln_t| <
            |Real.log 1 - ((TimingTracker.new 1).ln_t + Real.log 3)| then (1 : ℝ)
         else 1 / 3) :=
  ⟨by norm_num, tracker_update_ewma (TimingTracker.new 1) 1 rfl (by norm_num)⟩

/-- C4 counterexample: for the positive duration 1e-7 the code clamps the
duration to 1e-6 before taking the logarithm, so the updated ln_t is not the
value the claim prescribes for the raw duration. -/
theorem tracker_update_ewma_counterexample :
    ¬ (((TimingTracker.new 1).update_from_on_signal 1e-7).ln_t =
      (1 - 0.1) * (TimingTracker.new 1).ln_t + 0.1 * Real.log
        (if |Real.log 1e-7 - (TimingTracker.new 1).ln_t| <
            |Real.log 1e-7 - ((TimingTracker.new 1).ln_t + Real.log 3)| then (1e-7 : ℝ)
         else 1e-7 / 3)) := by
  have h3 : (0 : ℝ) < Real.log 3 := Real.log_pos (by norm_num)
  have h6 : Real.log (1e-6 : ℝ) < 0 := Real.log_neg (by norm_num) (by norm_num)
  have h7 : Real.log (1e-7 : ℝ) < 0 := Real.log_neg (by norm_num) (by norm_num)
  have hlt : Real.log (1e-7 : ℝ) < Real.log (1e-6 : ℝ) :=
    Real.log_lt_log (by norm_num) (by norm_num)
  have hcode : ((TimingTracker.new 1).update_from_on_signal 1e-7).ln_t
      = (1 - 0.1) * 0 + 0.1 * Real.log (1e-6 : ℝ) := by
    unfold TimingTracker.update_from_on_signal
    dsimp only
    rw [tracker_new_alpha, tracker_new_one_ln_t]
    rw [max_eq_right (by norm_num : (1e-7 : ℝ) ≤ 1e-6)]
    have hcond : |Real.log (1e-6 : ℝ) - 0| < |Real.log (1e-6 : ℝ) - (0 + Real.log 3)| := by
      rw [sub_zero, zero_add, abs_of_neg h6, abs_of_neg (by linarith)]
      linarith
    rw [if_pos hcond]
  have hclaim : (if |Real.log (1e-7 : ℝ) - (TimingTracker.new 1).ln_t| <
      |Real.log (1e-7 : ℝ) - ((TimingTracker.new 1).ln_t + Real.log 3)| then (1e-7 : ℝ)
      else 1e-7 / 3) = (1e-7 : ℝ) := by
    rw [tracker_new_one_ln_t, sub_zero, zero_add]
    have hcond2 : |Real.log (1e-7 : ℝ)| < |Real.log (1e-7 : ℝ) - Real.log 3| := by
      rw [abs_of_neg h7, abs_of_neg (by linarith)]
      linarith
    rw [if_pos hcond2]
  intro hc
  rw [hclaim, hcode, tracker_new_one_ln_t] at hc
  have heq : Real.log (1e-6 : ℝ) = Real.log (1e-7 : ℝ) := by linarith
  linarith

/-- Sorting does not change the length. -/
lemma sortReal_length (l : List ℝ) : (sortReal l).length = l.length := by
  unfold sortReal
  exact List.length_insertionSort _ _

/-- Sorting the already sorted pair of durations 1 and 3. -/
lemma sortReal_pair : sortReal [(1 : ℝ), 3] = [1, 3] := by
  have h13 : (1 : ℝ) ≤ 3 := by norm_num
  unfold sortReal
  simp [List.insertionSort, List.orderedInsert, h13]

/-- With one or two OFF samples, gap clustering scales the element at index
length / 2 of the sorted samples by 0.7 and 1.5. -/
lemma cluster_small_sample_thresholds (off_durations : List ℝ) (dot_duration : ℝ)
    (h : off_durations.length = 1 ∨ off_durations.length = 2) :
    MorseTimings.cluster_gap_durations off_durations dot_duration =
      { intra_to_inter_threshold :=
          (sortReal off_durations).getD (off_durations.length / 2) 0 * 0.7
        inter_to_word_threshold :=
          (sortReal off_durations).getD (off_durations.length / 2) 0 * 1.5 } := by
  have hne : off_durations.isEmpty = false := by
    cases off_durations with
    | nil => rcases h with h | h <;> simp at h
    | cons a t => rfl
  have hlt : off_durations.length < 3 := by rcases h with h | h <;> omega
  unfold MorseTimings.cluster_gap_durations
  rw [if_neg (by simp [hne]), if_pos hlt]
  dsimp only
  rw [sortReal_length]

/-- C6 (amended): with one or two OFF samples, gap clustering returns the
element at index length / 2 of the sorted samples scaled by 0.7 and 1.5;
that element is the sample itself for one sample, but the larger sample
(not the median) for two. -/
theorem cluster_few_samples (off_durations : List ℝ) (dot_duration : ℝ)
    (h : off_durations.length = 1 ∨ off_durations.length = 2) :
    MorseTimings.cluster_gap_durations off_durations dot_duration =
      { intra_to_inter_threshold :=
          (sortReal off_durations).getD (off_durations.length / 2) 0 * 0.7
        inter_to_word_threshold :=
          (sortReal off_durations).getD (off_durations.length / 2) 0 * 1.5 } :=
  cluster_small_sample_thresholds off_durations dot_duration h

/-- Witness for the amended C6 at the single OFF sample 2. -/
theorem cluster_few_samples_witness :
    (([(2 : ℝ)]).length = 1 ∨ ([(2 : ℝ)]).length = 2) ∧
    MorseTimings.cluster_gap_durations [(2 : ℝ)] 5 =
      { intra_to_inter_threshold :=
          (sortReal [(2 : ℝ)]).getD (([(2 : ℝ)]).length / 2) 0 * 0.7
        inter_to_word_threshold :=
          (sortReal [(2 : ℝ)]).getD (([(2 : ℝ)]).length / 2) 0 * 1.5 } :=
  ⟨Or.inl rfl, cluster_few_samples [(2 : ℝ)] 5 (Or.inl rfl)⟩

/-- C6 counterexample: with the two OFF samples 1 and 3 the code returns
thresholds 2.1 and 4.5, which are 0.7 and 1.5 times the larger sample 3,
not 0.7 and 1.5 times the median 2 of the two samples. -/
theorem cluster_few_samples_counterexample :
    (MorseTimings.cluster_gap_durations [(1 : ℝ), 3] 1).intra_to_inter_threshold = 21 / 10 ∧
    (MorseTimings.cluster_gap_durations [(1 : ℝ), 3] 1).inter_to_word_threshold = 9 / 2 ∧
    ¬ ((MorseTimings.cluster_gap_durations [(1 : ℝ), 3] 1).intra_to_inter_threshold
        = ((1 : ℝ) + 3) / 2 * 0.7 ∧
       (MorseTimings.cluster_gap_durations [(1 : ℝ), 3] 1).inter_to_word_threshold
        = ((1 : ℝ) + 3) / 2 * 1.5) := by
  have hmain : MorseTimings.cluster_gap_durations [(1 : ℝ), 3] 1 =
      { intra_to_inter_threshold := 21 / 10, inter_to_word_threshold := 9 / 2 } := by
    have h2 := cluster_small_sample_thresholds [(1 : ℝ), 3] 1 (Or.inr rfl)
    rw [h2, sortReal_pair]
    norm_num [GapClusters.mk.injEq]
  rw [hmain]
  norm_num

/-- The intra-character entry of the gap cost table is its first entry. -/
lemma lookupGapCost_intra (m : ProbabilisticTimingModel) (d : ℝ) :
    lookupGapCost (m.gap_costs d) GapType.IntraCharacter =
      if d ≤ m.gap_clusters.intra_to_inter_threshold then
        |d - m.gap_clusters.intra_to_inter_threshold / 2| * 0.1
      else
        |d - m.gap_clusters.intra_to_inter_threshold| * 0.5 := rfl

/-- C5 (amended): for every duration, element_costs returns exactly the
negative log-likelihood of the duration clamped below at 1e-6 (the clamp the
code applies before taking logarithms) under log-normal distributions
centered at one and three units (log-space means ln_t and ln_t + ln 3),
with the log-space standard deviation the constructor always sets to 0.5;
gap_costs, by contrast, is a piecewise-linear distance cost derived from the
cluster thresholds and is not a log-normal negative log-likelihood (see the
counterexample). -/
theorem element_costs_lognormal (m : ProbabilisticTimingModel) (d : ℝ) :
    (m.element_costs d =
      [(MorseElementType.Dot,
        lognormalNegLogLikelihood (max d 1e-6) m.ln_t m.sigma),
       (MorseElementType.Dash,
        lognormalNegLogLikelihood (max d 1e-6) (m.ln_t + Real.log 3) m.sigma)]) ∧
    ∀ (tr : TimingTracker) (gc : GapClusters),
      (ProbabilisticTimingModel.from_tracker_and_clusters tr gc).sigma = 0.5 := by
  constructor
  · unfold ProbabilisticTimingModel.element_costs ln_pdf_lognormal lognormalNegLogLikelihood
    dsimp only
    simp only [List.cons.injEq, Prod.mk.injEq, and_true, true_and]
    constructor <;> ring
  · intro tr gc
    rfl

/-- C5 counterexample: at the model with cluster thresholds 2 and 5, the
intra-character gap costs of the durations 1/2, 1 and 2 are 0.05, 0 and 0.1;
no log-normal negative log-likelihood with log-space standard deviation 0.5
(whatever its center mu) matches these three values, since a log-normal
would force f(2) + f(1/2) - 2 f(1) = 4 (ln 2)^2 > 1.9, while the gap costs
give 0.15. -/
theorem gap_costs_not_lognormal_counterexample :
    ¬ ∃ mu : ℝ,
      lookupGapCost (pmExample.gap_costs (1 / 2)) GapType.IntraCharacter =
        lognormalNegLogLikelihood (1 / 2) mu 0.5 ∧
      lookupGapCost (pmExample.gap_costs 1) GapType.IntraCharacter =
        lognormalNegLogLikelihood 1 mu 0.5 ∧
      lookupGapCost (pmExample.gap_costs 2) GapType.IntraCharacter =
        lognormalNegLogLikelihood 2 mu 0.5 := by
  have hpm : pmExample.gap_clusters.intra_to_inter_threshold = 2 := rfl
  have ha : lookupGapCost (pmExample.gap_costs (1 / 2)) GapType.IntraCharacter = 1 / 20 := by
    rw [lookupGapCost_intra, hpm]
    rw [if_pos (show (1 / 2 : ℝ) ≤ 2 by norm_num)]
    rw [show ((1 : ℝ) / 2 - 2 / 2) = -(1 / 2) by norm_num, abs_neg,
      abs_of_nonneg (show (0 : ℝ) ≤ 1 / 2 by norm_num)]
    norm_num
  have hb : lookupGapCost (pmExample.gap_costs 1) GapType.IntraCharacter = 0 := by
    rw [lookupGapCost_intra, hpm]
    rw [if_pos (show (1 : ℝ) ≤ 2 by norm_num)]
    rw [show ((1 : ℝ) - 2 / 2) = 0 by norm_num, abs_zero]
    norm_num
  have hc2 : lookupGapCost (pmExample.gap_costs 2) GapType.IntraCharacter = 1 / 10 := by
    rw [lookupGapCost_intra, hpm]
    rw [if_pos (show (2 : ℝ) ≤ 2 by norm_num)]
    rw [show ((2 : ℝ) - 2 / 2) = 1 by norm_num, abs_one]
    norm_num
  rintro ⟨mu, h1, h2, h3⟩
  rw [ha] at h1
  rw [hb] at h2
  rw [hc2] at h3
  unfold lognormalNegLogLikelihood at h1 h2 h3
  rw [show ((1 : ℝ) / 2) = 2⁻¹ by norm_num, Real.log_inv] at h1
  rw [Real.log_one] at h2
  have hkey : (4 : ℝ) * Real.log 2 ^ 2 = 3 / 20 := by
    linear_combination 2 * h2 - h1 - h3
  have hl2 : (0.6931471803 : ℝ) < Real.log 2 := Real.log_two_gt_d9
  nlinarith [sq_nonneg (Real.log 2 - 0.6931471803)]

/-- Membership in a pruned beam implies membership in the original beam. -/
lemma mem_prune_beam (d : BeamSearchDecoder) (h : Hypothesis)
    (hm : h ∈ d.prune_beam.hypotheses) : h ∈ d.hypotheses := by
  unfold BeamSearchDecoder.prune_beam at hm
  by_cases hc : d.hypotheses.length ≤ d.params.beam_size
  · rw [if_pos hc] at hm
    exact hm
  · rw [if_neg hc] at hm
    have h1 : h ∈ sortHypothesesByCost d.hypotheses := List.take_subset _ _ hm
    unfold sortHypothesesByCost at h1
    exact (List.perm_insertionSort _ _).mem_iff.mp h1

/-- add_character extends the text by exactly one character. -/
lemma add_character_text_length (h : Hypothesis) (ch : Char) (c : ℝ) :
    (h.add_character ch c).text.length = h.text.length + 1 := by
  simp [Hypothesis.add_character]

/-- Every branch an OFF signal spawns from one hypothesis adds at most two
characters to its text. -/
lemma offSignalBranches_text_le (d : BeamSearchDecoder) (g : GapType) (s : MorseSignal)
    (h h' : Hypothesis) (hm : h' ∈ offSignalBranches d g s h) :
    h'.text.length ≤ h.text.length + 2 := by
  unfold offSignalBranches at hm
  rcases List.mem_append.mp hm with hm | hm
  · cases g with
    | IntraCharacter =>
      rw [List.mem_singleton] at hm
      subst hm
      split
      · exact Nat.le_add_right _ _
      · exact Nat.le_add_right _ _
    | InterCharacter =>
      rcases List.mem_append.mp hm with hm | hm
      · cases hterm : d.trie.get_terminal h.trie_node with
        | some ch =>
          rw [hterm] at hm
          rw [List.mem_singleton] at hm
          subst hm
          simp [Hypothesis.add_character]
        | none =>
          rw [hterm] at hm
          simp at hm
      · by_cases hp : LONG_WORD_LENGTH_THRESHOLD < h.pending_word_len
        · rw [if_pos hp] at hm
          cases hterm : d.trie.get_terminal h.trie_node with
          | some ch =>
            rw [hterm] at hm
            rw [List.mem_singleton] at hm
            subst hm
            simp [Hypothesis.add_character]
          | none =>
            rw [hterm] at hm
            simp at hm
        · rw [if_neg hp] at hm
          simp at hm
    | Word =>
      cases hterm : d.trie.get_terminal h.trie_node with
      | some ch =>
        rw [hterm] at hm
        rw [List.mem_singleton] at hm
        subst hm
        simp [Hypothesis.add_character]
      | none =>
        rw [hterm] at hm
        simp at hm
  · by_cases hg : g = GapType.InterCharacter
    · rw [if_pos hg] at hm
      rw [List.mem_singleton] at hm
      subst hm
      split
      · exact Nat.le_add_right _ _
      · exact Nat.le_add_right _ _
    · rw [if_neg hg] at hm
      simp at hm

/-- An ON signal never lengthens any hypothesis text. -/
lemma process_on_signal_text_le (d : BeamSearchDecoder) (s : MorseSignal) (B : Nat)
    (hB : ∀ h ∈ d.hypotheses, h.text.length ≤ B) :
    ∀ h' ∈ (d.process_on_signal s).hypotheses, h'.text.length ≤ B + 2 := by
  intro h' hm
  unfold BeamSearchDecoder.process_on_signal at hm
  have hm2 := mem_prune_beam _ _ hm
  rcases List.mem_filterMap.mp hm2 with ⟨a, ha, hfa⟩
  cases ht : d.trie.transition a.trie_node
      (d.timing_model.classify_element_min_cost s.seconds) with
  | some nn =>
    rw [ht] at hfa
    have hx : h'.text = a.text := by
      cases hfa
      rfl
    rw [hx]
    exact le_trans (hB a ha) (Nat.le_add_right _ _)
  | none =>
    rw [ht] at hfa
    exact absurd hfa (by simp)

/-- An OFF signal lengthens every hypothesis text by at most two. -/
lemma process_off_signal_text_le (d : BeamSearchDecoder) (s : MorseSignal) (B : Nat)
    (hB : ∀ h ∈ d.hypotheses, h.text.length ≤ B) :
    ∀ h' ∈ (d.process_off_signal s).hypotheses, h'.text.length ≤ B + 2 := by
  intro h' hm
  unfold BeamSearchDecoder.process_off_signal at hm
  have hm2 := mem_prune_beam _ _ hm
  rcases List.mem_flatMap.mp hm2 with ⟨a, ha, hmb⟩
  exact le_trans (offSignalBranches_text_le _ _ _ _ _ hmb)
    (Nat.add_le_add_right (hB a ha) 2)

/-- One loop step lengthens every hypothesis text by at most two. -/
lemma stepSignal_text_le (d : BeamSearchDecoder) (s : MorseSignal) (B : Nat)
    (hB : ∀ h ∈ d.hypotheses, h.text.length ≤ B) :
    ∀ h' ∈ (stepSignal d s).hypotheses, h'.text.length ≤ B + 2 := by
  unfold stepSignal
  have hB1 : ∀ h ∈ (d.update_timing s).hypotheses, h.text.length ≤ B := by
    rw [update_timing_hypotheses]
    exact hB
  by_cases hs : s.is_on = true
  · rw [if_pos hs]
    exact process_on_signal_text_le _ s B hB1
  · rw [if_neg hs]
    exact process_off_signal_text_le _ s B hB1

/-- As long as the text cap cannot be reached, the signal loop counts every
signal of the input. -/
lemma parseLoop_count (signals : List MorseSignal) (d : BeamSearchDecoder) (maxLen : Nat)
    (n : Int) (B : Nat) (hB : ∀ h ∈ d.hypotheses, h.text.length ≤ B)
    (hlen : B + 2 * signals.length < maxLen) :
    (parseLoop d signals maxLen n).2 = n + signals.length := by
  induction signals generalizing d n B with
  | nil => simp [parseLoop]
  | cons s rest ih =>
    unfold parseLoop
    have hstep : ∀ h ∈ (stepSignal d s).hypotheses, h.text.length ≤ B + 2 :=
      stepSignal_text_le d s B hB
    have hlen2 : B + 2 * (s :: rest).length = B + 2 + 2 * rest.length := by
      simp [List.length_cons]
      ring
    have hbreak : ((stepSignal d s).hypotheses.any fun hh =>
        decide (maxLen ≤ hh.text.length)) = false := by
      rw [List.any_eq_false]
      intro x hx
      simp only [decide_eq_true_eq, not_le]
      have hx2 := hstep x hx
      omega
    rw [if_neg (by simp [hbreak])]
    have hrec := ih (stepSignal d s) (n + 1) (B + 2) hstep (by omega)
    rw [hrec]
    simp [List.length_cons]
    omega

/-- When twice the input length stays below the cap, the parse reports
every input signal as processed. -/
lemma parse_processes_all_signals (e : TrigramTable) (signals : List MorseSignal)
    (t : MorseTimings) (maxLen : Nat) (hlen : 2 * signals.length < maxLen) :
    (parse_morse_signals_beam_search e signals t maxLen).signals_processed =
      (signals.length : Int) := by
  unfold parse_morse_signals_beam_search
  by_cases h : signals.isEmpty = true
  · rw [if_pos h]
    have hnil : signals = [] := List.isEmpty_iff.mp h
    simp [hnil]
  · rw [if_neg h]
    have hinit : ∀ hh ∈ (BeamSearchDecoder.new e t BeamSearchParams.default).hypotheses,
        hh.text.length ≤ 0 := by
      intro hh hm
      have hh2 : hh = Hypothesis.new := by
        have he : (BeamSearchDecoder.new e t BeamSearchParams.default).hypotheses =
            [Hypothesis.new] := rfl
        rw [he] at hm
        exact List.mem_singleton.mp hm
      rw [hh2]
      exact Nat.le_refl _
    have hc := parseLoop_count signals
      (BeamSearchDecoder.new e t BeamSearchParams.default) maxLen 0 0 hinit (by omega)
    show (parseLoop (BeamSearchDecoder.new e t BeamSearchParams.default)
      signals maxLen 0).2 = (signals.length : Int)
    rw [hc]
    omega

/-- from_signals reads its input only through the two noise filters. -/
lemma from_signals_congr (s1 s2 : List MorseSignal)
    (hon : s1.filter (fun s => s.is_on && decide (NOISE_THRESHOLD ≤ s.seconds)) =
      s2.filter (fun s => s.is_on && decide (NOISE_THRESHOLD ≤ s.seconds)))
    (hoff : s1.filter (fun s => !s.is_on && decide (NOISE_THRESHOLD ≤ s.seconds)) =
      s2.filter (fun s => !s.is_on && decide (NOISE_THRESHOLD ≤ s.seconds))) :
    MorseTimings.from_signals s1 = MorseTimings.from_signals s2 := by
  unfold MorseTimings.from_signals
  rw [hon, hoff]

/-- Removing an element the predicate rejects leaves a filter unchanged. -/
lemma filter_removal (p : MorseSignal → Bool) (pre post : List MorseSignal) (x : MorseSignal)
    (hx : p x = false) :
    (pre ++ x :: post).filter p = (pre ++ post).filter p := by
  simp [List.filter_append, List.filter_cons, hx]

/-- C2 (amended): signals shorter than the 0.01 second noise threshold are
excluded only from the timing analysis: removing such a signal never changes
the MorseTimings computed by from_signals.  The beam-search loop, however,
still processes every signal, and signals_processed counts all of them:
whenever twice the input length stays below the output cap it equals the
full input length, sub-threshold signals included. -/
theorem noise_excluded_from_timing_only :
    (∀ (pre post : List MorseSignal) (x : MorseSignal), x.seconds < NOISE_THRESHOLD →
      MorseTimings.from_signals (pre ++ x :: post) =
        MorseTimings.from_signals (pre ++ post)) ∧
    (∀ (e : TrigramTable) (signals : List MorseSignal) (t : MorseTimings) (maxLen : Nat),
      2 * signals.length < maxLen →
      (parse_morse_signals_beam_search e signals t maxLen).signals_processed =
        (signals.length : Int)) := by
  constructor
  · intro pre post x hx
    have hdec : decide (NOISE_THRESHOLD ≤ x.seconds) = false :=
      decide_eq_false (not_le.mpr hx)
    exact from_signals_congr _ _
      (filter_removal _ pre post x (by simp [hdec]))
      (filter_removal _ pre post x (by simp [hdec]))
  · exact parse_processes_all_signals

/-- Witness for the amended C2: dropping a 0.001 s OFF signal does not
change the timing analysis, and a one-signal input reports one processed
signal. -/
theorem noise_excluded_from_timing_only_witness :
    ((0.001 : ℝ) < NOISE_THRESHOLD ∧
      MorseTimings.from_signals ([⟨true, 0.1⟩] ++ ⟨false, 0.001⟩ :: []) =
        MorseTimings.from_signals ([⟨true, 0.1⟩] ++ [])) ∧
    (2 * ([⟨true, (1 : ℝ)⟩] : List MorseSignal).length < 1000 ∧
      (parse_morse_signals_beam_search [] [⟨true, (1 : ℝ)⟩]
        { dot_duration := 1,
          gap_clusters := { intra_to_inter_threshold := 2, inter_to_word_threshold := 5 } }
        1000).signals_processed = (([⟨true, (1 : ℝ)⟩] : List MorseSignal).length : Int)) := by
  constructor
  · refine ⟨by norm_num [NOISE_THRESHOLD], ?_⟩
    exact noise_excluded_from_timing_only.1 [⟨true, 0.1⟩] [] ⟨false, 0.001⟩
      (by norm_num [NOISE_THRESHOLD])
  · refine ⟨by norm_num, ?_⟩
    exact noise_excluded_from_timing_only.2 [] [⟨true, (1 : ℝ)⟩] _ 1000 (by norm_num)

/-- C2 counterexample: with default parameters, decoding
[ON 0.1 s, OFF 0.3 s, ON 0.001 s] succeeds and reports signals_processed =
3, while the same input without its sub-threshold 0.001 s signal reports 2:
the noise signal is counted in signals_processed, not excluded. -/
theorem noise_counted_counterexample :
    (∃ r, morse_interpret [] [⟨true, 0.1⟩, ⟨false, 0.3⟩, ⟨true, 0.001⟩]
        MorseInterpretParams.default = Except.ok r ∧ r.signals_processed = 3) ∧
    (∃ r, morse_interpret [] [⟨true, 0.1⟩, ⟨false, 0.3⟩]
        MorseInterpretParams.default = Except.ok r ∧ r.signals_processed = 2) := by
  have husize : usizeOfI32 MorseInterpretParams.default.max_output_length = 1000 := by
    unfold usizeOfI32 MorseInterpretParams.default
    norm_num
    rfl
  constructor
  · obtain ⟨t, ht⟩ := (from_signals_ok_iff
        [⟨true, 0.1⟩, ⟨false, 0.3⟩, ⟨true, 0.001⟩]).mpr
      ⟨⟨true, 0.1⟩, List.mem_cons_self _ _, rfl, by norm_num [NOISE_THRESHOLD]⟩
    refine ⟨parse_morse_signals_beam_search [] [⟨true, 0.1⟩, ⟨false, 0.3⟩, ⟨true, 0.001⟩] t
      (usizeOfI32 MorseInterpretParams.default.max_output_length), ?_, ?_⟩
    · unfold morse_interpret
      rw [if_neg (by simp), ht]
      rfl
    · rw [husize]
      have hc := parse_processes_all_signals []
        [⟨true, 0.1⟩, ⟨false, 0.3⟩, ⟨true, 0.001⟩] t 1000 (by norm_num)
      rw [hc]
      rfl
  · obtain ⟨t, ht⟩ := (from_signals_ok_iff [⟨true, 0.1⟩, ⟨false, 0.3⟩]).mpr
      ⟨⟨true, 0.1⟩, List.mem_cons_self _ _, rfl, by norm_num [NOISE_THRESHOLD]⟩
    refine ⟨parse_morse_signals_beam_search [] [⟨true, 0.1⟩, ⟨false, 0.3⟩] t
      (usizeOfI32 MorseInterpretParams.default.max_output_length), ?_, ?_⟩
    · unfold morse_interpret
      rw [if_neg (by simp), ht]
      rfl
    · rw [husize]
      have hc := parse_processes_all_signals [] [⟨true, 0.1⟩, ⟨false, 0.3⟩] t 1000
        (by norm_num)
      rw [hc]
      rfl

end

end Dahdit
